import Mathlib

/-!
Verification development for the Schelling segregation simulator in
`src/main.py`.  The grid, neighbourhood evaluation, unhappiness
classification, relocation pass, initialisation and the simulation loop are
embedded as executable Lean definitions; randomness (numpy draws, the
`random.shuffle` of the unhappy list, and each `random.choice` of a
destination) is made explicit as oracle parameters.
-/

/-- Coordinate on the grid: a `(row, column)` pair, mirroring the
`(y_index, x_index)` pairs used throughout `main.py`. -/
abbrev Coord := Nat × Nat

/-- The simulation grid: a `height × width` numpy integer array stored in
row-major order, so `grid[y][x]` is `cells[y * width + x]`.  Cell values are
integers: `-1` marks an empty cell, and values in `[2, agent_types + 2)` are
agent types (see `SocialSegregation.__init__`). -/
structure Grid where
  width : Nat
  height : Nat
  cells : List Int
  deriving DecidableEq

/-- Well-formedness: the flat cell buffer has exactly `height * width`
entries, as a numpy array of shape `(height, width)` does. -/
def Grid.WF (g : Grid) : Prop := g.cells.length = g.height * g.width

/-- Read `grid[y][x]` (row-major flat access). -/
def Grid.get (g : Grid) (y x : Nat) : Int := g.cells.getD (y * g.width + x) 0

/-- Write `grid[y][x] = v` (the source mutates the array in place). -/
def Grid.set (g : Grid) (y x : Nat) (v : Int) : Grid :=
  { g with cells := g.cells.set (y * g.width + x) v }

/-- Read a cell at a coordinate pair. -/
def Grid.getC (g : Grid) (c : Coord) : Int := g.get c.1 c.2

/-- A coordinate lies inside the grid bounds. -/
def Grid.inB (g : Grid) (c : Coord) : Prop := c.1 < g.height ∧ c.2 < g.width

/-- The bounds test of `_get_neighbours`:
`i >= 0 and j >= 0 and i < len(self.grid) and j < len(self.grid[0])`. -/
def Grid.inBoundsI (g : Grid) (i j : Int) : Bool :=
  decide (0 ≤ i) && decide (0 ≤ j) &&
    decide (i < (g.height : Int)) && decide (j < (g.width : Int))

/-- Moore neighbourhood values from `_get_neighbours`: the source iterates
`i` over `[row-1, row+2)` and `j` over `[col-1, col+2)` in row-major order,
skips `(row, col)` itself, and keeps the in-bounds cells.  The eight
candidate offsets are listed here in exactly that iteration order. -/
def getNeighbours (g : Grid) (row col : Nat) : List Int :=
  (([((row : Int) - 1, (col : Int) - 1), ((row : Int) - 1, (col : Int)),
     ((row : Int) - 1, (col : Int) + 1),
     ((row : Int), (col : Int) - 1), ((row : Int), (col : Int) + 1),
     ((row : Int) + 1, (col : Int) - 1), ((row : Int) + 1, (col : Int)),
     ((row : Int) + 1, (col : Int) + 1)] : List (Int × Int)).filter
    (fun p => g.inBoundsI p.1 p.2)).map (fun p => g.get p.1.toNat p.2.toNat)

/-- The list `not_empty_neighbours = [i for i in neighbours if i != -1]`
from `_find_unhappy_cells`. -/
def notEmptyNeighbours (g : Grid) (row col : Nat) : List Int :=
  (getNeighbours g row col).filter (fun i => !(i == -1))

/-- The unhappiness test of `_find_unhappy_cells` for the cell at `(y, x)`:
`sum(i == current for i in not_empty_neighbours if i != -1)
  < len(not_empty_neighbours) * same_neighbour`.
The float `same_neighbour` threshold is modelled as a rational `t`. -/
def unhappyAt (g : Grid) (t : ℚ) (y x : Nat) : Bool :=
  let current := g.get y x
  let nbs := notEmptyNeighbours g y x
  decide ((((nbs.filter (fun i => !(i == -1))).countP (fun i => i == current) : ℕ) : ℚ)
    < (nbs.length : ℚ) * t)

/-- Row-major scan of the whole grid, keeping the coordinates that satisfy
`p`: the shape shared by the two comprehensions
`[(y_index, x_index) for y_index, row in enumerate(grid) for x_index, x in
enumerate(row) if ...]` in `_find_unhappy_cells` and `_get_empty_cells`. -/
def coordScan (h w : Nat) (p : Nat → Nat → Bool) : List Coord :=
  (List.range h).flatMap
    (fun y => ((List.range w).filter (fun x => p y x)).map (fun x => (y, x)))

/-- The list built by `_find_unhappy_cells` before it is shuffled: occupied
cells (`x != -1`, the `continue` branch) whose unhappiness test holds. -/
def findUnhappyCells (g : Grid) (t : ℚ) : List Coord :=
  coordScan g.height g.width (fun y x => !(g.get y x == -1) && unhappyAt g t y x)

/-- The list built by `_get_empty_cells`: all coordinates currently
holding `-1`, in row-major order. -/
def getEmptyCells (g : Grid) : List Coord :=
  coordScan g.height g.width (fun y x => g.get y x == -1)

/-- One `random.choice(l)`, with the uniform draw supplied by the oracle
value `k`: `l[k % len(l)]`, and `none` for the `IndexError` on an empty
list. -/
def randomChoice (l : List Coord) (k : Nat) : Option Coord := l[k % l.length]?

/-- The body of the relocation loop in `_update`, for one unhappy source
cell: choose a destination from the working list `empty_spots` (rescanning
the grid first when the list has been exhausted, as the `except IndexError`
branch does), write the agent into the destination, blank the source, and
delete the destination from the working list.  `none` models the uncaught
`IndexError` when even the rescan finds no empty cell; otherwise the new
grid, the new working list and the chosen destination are returned.  `k` is
the oracle value for this step's `random.choice`. -/
def relocateOne (g : Grid) (spots : List Coord) (src : Coord) (k : Nat) :
    Option (Grid × List Coord × Coord) :=
  let spots1 := if spots.isEmpty then getEmptyCells g else spots
  match randomChoice spots1 k with
  | none => none
  | some d =>
    some ((g.set d.1 d.2 (g.getC src)).set src.1 src.2 (-1),
      spots1.erase d, d)

/-- The relocation loop of `_update` (`for y_index, x_index in
unhappy_cells`), processing each unhappy coordinate in order with
`relocateOne`.  Returns the final grid, the final working list, and the
list of chosen destinations in processing order; `f n` is the oracle value
for the `n`-th `random.choice`. -/
def updateLoop (g : Grid) (spots : List Coord) (unhappy : List Coord)
    (f : Nat → Nat) : Option (Grid × List Coord × List Coord) :=
  match unhappy with
  | [] => some (g, spots, [])
  | src :: rest =>
    match relocateOne g spots src (f 0) with
    | none => none
    | some (g1, spots1, d) =>
      match updateLoop g1 spots1 rest (fun n => f (n + 1)) with
      | none => none
      | some (g2, spots2, ds) => some (g2, spots2, d :: ds)

/-- A full relocation pass of `_update` on the grid `g`, processing the
already-shuffled list `unhappy`: the working list starts as
`_get_empty_cells()` of the current grid. -/
def updatePass (g : Grid) (unhappy : List Coord) (f : Nat → Nat) :
    Option (Grid × List Coord × List Coord) :=
  updateLoop g (getEmptyCells g) unhappy f

/-- The numeric validation in `ArgParser.process_args`: the configuration is
accepted iff neither `percent_empty` nor `same_neighbour` triggers a
`ValueError` (`value < 0 or value >= 1`). -/
def processArgsOk (percentEmpty sameNeighbour : ℚ) : Bool :=
  !(decide (percentEmpty < 0) || decide (1 ≤ percentEmpty)) &&
    !(decide (sameNeighbour < 0) || decide (1 ≤ sameNeighbour))

/-- The number of cells blanked at initialisation:
`num_empty = int(args.percent_empty * self.grid.size)`.  Python `int()`
truncates toward zero, and `percent_empty` is validated nonnegative, so this
is the floor. -/
def numEmpty (p : ℚ) (size : Nat) : Nat := (⌊p * (size : ℚ)⌋).toNat

/-- The cell buffer built by `SocialSegregation.__init__`: `vals` is the
`np.random.randint(2, agent_types + 2, size=(height, width))` draw
(flattened), `perm` is the shuffled index array `empty_indice`; the first
`num_empty` shuffled indices are overwritten with `-1` via `grid.flat`. -/
def initCells (size : Nat) (p : ℚ) (vals : List Int) (perm : List Nat) :
    List Int :=
  (perm.take (numEmpty p size)).foldl (fun cs i => cs.set i (-1)) vals

/-- The freshly initialised grid of `SocialSegregation.__init__`. -/
def initGrid (w h : Nat) (p : ℚ) (vals : List Int) (perm : List Nat) : Grid :=
  { width := w, height := h, cells := initCells (h * w) p vals perm }

/-- Terminal states of the simulation loop: `converged` models the
`sys.exit(0)` taken by `_find_unhappy_cells` when no cell is unhappy,
`budgetExhausted` models falling off the end of `range(1, iterations + 1)`,
and `crashed` models the uncaught `IndexError` of a failed relocation. -/
inductive SimOutcome where
  | converged : Grid → SimOutcome
  | budgetExhausted : Grid → SimOutcome
  | crashed : SimOutcome
  deriving DecidableEq

/-- The loop of `run` with a finite iteration budget (`args.iterations = N`,
modelled as the remaining-budget argument): each iteration first checks for
convergence (inside `_find_unhappy_cells`), then shuffles the unhappy list
(oracle `sh`) and performs one relocation pass (choice oracle `ch i`).
Returns the outcome together with the number of relocation passes
performed. -/
def runSim (t : ℚ) (sh : Nat → List Coord → List Coord)
    (ch : Nat → Nat → Nat) (g : Grid) (i : Nat) :
    Nat → SimOutcome × Nat
  | 0 => (SimOutcome.budgetExhausted g, 0)
  | b + 1 =>
    if (findUnhappyCells g t).isEmpty then (SimOutcome.converged g, 0)
    else
      match updatePass g (sh i (findUnhappyCells g t)) (ch i) with
      | none => (SimOutcome.crashed, 1)
      | some (g1, _, _) =>
        ((runSim t sh ch g1 (i + 1) b).1, (runSim t sh ch g1 (i + 1) b).2 + 1)

/-- The loop of `run` with `args.iterations = -1` (`itertools.count(1)`):
it can only stop by converging.  The extra fuel argument lets us observe
finite prefixes of the unbounded loop: `some g'` means the loop halted
normally within `fuel` iterations with final grid `g'`; `none` covers both
an `IndexError` crash and not having halted yet. -/
def runUnbounded (t : ℚ) (sh : Nat → List Coord → List Coord)
    (ch : Nat → Nat → Nat) (g : Grid) (i : Nat) : Nat → Option Grid
  | 0 => none
  | b + 1 =>
    if (findUnhappyCells g t).isEmpty then some g
    else
      match updatePass g (sh i (findUnhappyCells g t)) (ch i) with
      | none => none
      | some (g1, _, _) => runUnbounded t sh ch g1 (i + 1) b

/-- The sequence of grids observed by `_save_img`, one snapshot at the start
of every iteration (the snapshot is taken before `_update`, so the converged
grid is still recorded). -/
def runTrace (t : ℚ) (sh : Nat → List Coord → List Coord)
    (ch : Nat → Nat → Nat) (g : Grid) (i : Nat) : Nat → List Grid
  | 0 => []
  | b + 1 =>
    g :: (if (findUnhappyCells g t).isEmpty then []
      else
        match updatePass g (sh i (findUnhappyCells g t)) (ch i) with
        | none => []
        | some (g1, _, _) => runTrace t sh ch g1 (i + 1) b)

/-! ### List-level helper lemmas -/

/-- Reading a just-written position of a list. -/
theorem list_getD_set_eq {α : Type} (l : List α) (i : Nat) (v d : α)
    (h : i < l.length) : (l.set i v).getD i d = v := by
  rw [List.getD_eq_getElem?_getD, List.getElem?_set_self h]
  rfl

/-- Reading a position other than the one just written. -/
theorem list_getD_set_ne {α : Type} (l : List α) {i j : Nat} (v d : α)
    (h : i ≠ j) : (l.set i v).getD j d = l.getD j d := by
  rw [List.getD_eq_getElem?_getD, List.getElem?_set_ne h,
    ← List.getD_eq_getElem?_getD]

/-- An in-range `getD` is a member of the list. -/
theorem list_getD_mem {α : Type} (l : List α) (i : Nat) (d : α)
    (h : i < l.length) : l.getD i d ∈ l := by
  rw [List.getD_eq_getElem l d h]
  exact List.getElem_mem h

/-- How one in-place write changes the number of occurrences of a value
(additive form, to avoid truncated subtraction). -/
theorem count_set_add (l : List Int) (i : Nat) (v w : Int)
    (h : i < l.length) :
    (l.set i v).count w + (if l.getD i 0 = w then 1 else 0)
      = l.count w + (if v = w then 1 else 0) := by
  induction l generalizing i with
  | nil => simp at h
  | cons a as ih =>
    cases i with
    | zero =>
      simp only [List.set_cons_zero, List.count_cons, List.getD_cons_zero,
        beq_iff_eq]
      split_ifs <;> omega
    | succ k =>
      have hk : k < as.length := by simpa using h
      have ihk := ih k hk
      simp only [List.set_cons_succ, List.count_cons, List.getD_cons_succ,
        beq_iff_eq]
      omega

/-! ### Grid-level helper lemmas -/

/-- Writing a cell does not change the grid dimensions. -/
theorem Grid.set_width (g : Grid) (y x : Nat) (v : Int) :
    (g.set y x v).width = g.width := rfl

/-- Writing a cell does not change the grid dimensions. -/
theorem Grid.set_height (g : Grid) (y x : Nat) (v : Int) :
    (g.set y x v).height = g.height := rfl

/-- Writing a cell preserves well-formedness. -/
theorem Grid.set_WF (g : Grid) (hWF : g.WF) (y x : Nat) (v : Int) :
    (g.set y x v).WF := by
  show (g.cells.set (y * g.width + x) v).length = g.height * g.width
  rw [List.length_set]
  exact hWF

/-- The flat index of an in-bounds coordinate is in range. -/
theorem flat_lt (g : Grid) (hWF : g.WF) {c : Coord} (h : g.inB c) :
    c.1 * g.width + c.2 < g.cells.length := by
  rcases h with ⟨h1, h2⟩
  have hrow : c.1 * g.width + c.2 < (c.1 + 1) * g.width := by
    rw [Nat.succ_mul]
    omega
  have hcap : (c.1 + 1) * g.width ≤ g.height * g.width :=
    Nat.mul_le_mul_right _ h1
  rw [hWF]
  omega

/-- Row-major flat indexing is injective on coordinates with an in-bounds
column. -/
theorem flatIdx_inj (w : Nat) {y1 x1 y2 x2 : Nat} (h1 : x1 < w) (h2 : x2 < w)
    (h : y1 * w + x1 = y2 * w + x2) : y1 = y2 ∧ x1 = x2 := by
  have hy : y1 = y2 := by
    rcases Nat.lt_trichotomy y1 y2 with hlt | heq | hgt
    · exfalso
      have hm : (y1 + 1) * w ≤ y2 * w := Nat.mul_le_mul_right _ hlt
      rw [Nat.succ_mul] at hm
      omega
    · exact heq
    · exfalso
      have hm : (y2 + 1) * w ≤ y1 * w := Nat.mul_le_mul_right _ hgt
      rw [Nat.succ_mul] at hm
      omega
  subst hy
  exact ⟨rfl, Nat.add_left_cancel h⟩

/-- Reading back the cell just written. -/
theorem Grid.getC_set_self (g : Grid) (hWF : g.WF) {c : Coord} (hc : g.inB c)
    (v : Int) : (g.set c.1 c.2 v).getC c = v := by
  show (g.cells.set (c.1 * g.width + c.2) v).getD (c.1 * g.width + c.2) 0 = v
  exact list_getD_set_eq _ _ _ _ (flat_lt g hWF hc)

/-- Reading a cell other than the one just written. -/
theorem Grid.getC_set_ne (g : Grid) {c c' : Coord} (hc : c.2 < g.width)
    (hc' : c'.2 < g.width) (hne : c ≠ c') (v : Int) :
    (g.set c.1 c.2 v).getC c' = g.getC c' := by
  have hidx : c.1 * g.width + c.2 ≠ c'.1 * g.width + c'.2 := by
    intro hEq
    rcases flatIdx_inj g.width hc hc' hEq with ⟨e1, e2⟩
    exact hne (Prod.ext e1 e2)
  show (g.cells.set (c.1 * g.width + c.2) v).getD (c'.1 * g.width + c'.2) 0
    = g.cells.getD (c'.1 * g.width + c'.2) 0
  exact list_getD_set_ne _ _ _ hidx

/-- Moving one agent from an occupied source to an empty destination keeps
every occurrence count in the cell buffer unchanged. -/
theorem move_preserves_count (g : Grid) (hWF : g.WF) {src dst : Coord}
    (hs : g.inB src) (hd : g.inB dst) (hne : dst ≠ src)
    (hdempty : g.getC dst = -1) (w : Int) :
    (((g.set dst.1 dst.2 (g.getC src)).set src.1 src.2 (-1)).cells).count w
      = g.cells.count w := by
  have hdI : dst.1 * g.width + dst.2 < g.cells.length := flat_lt g hWF hd
  have hsI : src.1 * g.width + src.2 < g.cells.length := flat_lt g hWF hs
  have hIne : dst.1 * g.width + dst.2 ≠ src.1 * g.width + src.2 := by
    intro hEq
    rcases flatIdx_inj g.width hd.2 hs.2 hEq with ⟨e1, e2⟩
    exact hne (Prod.ext e1 e2)
  have E1 := count_set_add g.cells (dst.1 * g.width + dst.2) (g.getC src) w hdI
  have E2 := count_set_add (g.cells.set (dst.1 * g.width + dst.2) (g.getC src))
    (src.1 * g.width + src.2) (-1) w (by rw [List.length_set]; exact hsI)
  have hgd : (g.cells.set (dst.1 * g.width + dst.2) (g.getC src)).getD
      (src.1 * g.width + src.2) 0 = g.cells.getD (src.1 * g.width + src.2) 0 :=
    list_getD_set_ne _ _ _ hIne
  have hv : g.cells.getD (src.1 * g.width + src.2) 0 = g.getC src := rfl
  have hdval : g.cells.getD (dst.1 * g.width + dst.2) 0 = -1 := hdempty
  rw [hgd, hv] at E2
  rw [hdval] at E1
  show ((g.cells.set (dst.1 * g.width + dst.2) (g.getC src)).set
    (src.1 * g.width + src.2) (-1)).count w = g.cells.count w
  omega

/-! ### Scan and choice lemmas -/

/-- Membership in a row-major coordinate scan. -/
theorem mem_coordScan {h w : Nat} {p : Nat → Nat → Bool} {c : Coord} :
    c ∈ coordScan h w p ↔ c.1 < h ∧ c.2 < w ∧ p c.1 c.2 = true := by
  obtain ⟨y, x⟩ := c
  simp only [coordScan, List.mem_flatMap, List.mem_map, List.mem_filter,
    List.mem_range]
  constructor
  · rintro ⟨a, ha, b, ⟨hb, hpb⟩, hEq⟩
    obtain ⟨rfl, rfl⟩ := Prod.mk.injEq .. ▸ hEq
    exact ⟨ha, hb, hpb⟩
  · rintro ⟨hy, hx, hp⟩
    exact ⟨y, hy, x, ⟨hx, hp⟩, rfl⟩

/-- A row-major coordinate scan has no duplicates. -/
theorem nodup_coordScan (h w : Nat) (p : Nat → Nat → Bool) :
    (coordScan h w p).Nodup := by
  unfold coordScan
  refine List.nodup_flatMap.mpr ⟨?_, ?_⟩
  · intro y _
    refine List.Nodup.map ?_ ((List.nodup_range w).filter _)
    intro a b hab
    simpa using hab
  · refine List.Pairwise.imp ?_ (List.nodup_range h)
    intro y1 y2 hne c hc1 hc2
    simp only [List.mem_map, List.mem_filter] at hc1 hc2
    obtain ⟨a, _, rfl⟩ := hc1
    obtain ⟨b, _, hEq⟩ := hc2
    exact hne (congrArg Prod.fst hEq).symm

/-- Membership in `_get_empty_cells`: exactly the in-bounds coordinates
currently holding `-1`. -/
theorem mem_getEmptyCells {g : Grid} {c : Coord} :
    c ∈ getEmptyCells g ↔ g.inB c ∧ g.getC c = -1 := by
  unfold getEmptyCells
  rw [mem_coordScan]
  unfold Grid.inB Grid.getC
  simp only [beq_iff_eq]
  tauto

/-- `_get_empty_cells` lists each empty coordinate once. -/
theorem nodup_getEmptyCells (g : Grid) : (getEmptyCells g).Nodup :=
  nodup_coordScan _ _ _

/-- Membership in the (unshuffled) unhappy list: in-bounds, occupied, and
failing the similarity test. -/
theorem mem_findUnhappyCells {g : Grid} {t : ℚ} {c : Coord} :
    c ∈ findUnhappyCells g t ↔
      g.inB c ∧ g.getC c ≠ -1 ∧ unhappyAt g t c.1 c.2 = true := by
  unfold findUnhappyCells
  rw [mem_coordScan]
  unfold Grid.inB Grid.getC
  simp only [Bool.and_eq_true, Bool.not_eq_true', beq_eq_false_iff_ne]
  tauto

/-- The unhappy list has no duplicates. -/
theorem nodup_findUnhappyCells (g : Grid) (t : ℚ) :
    (findUnhappyCells g t).Nodup :=
  nodup_coordScan _ _ _

/-- A successful `random.choice` returns a member of the list. -/
theorem randomChoice_mem {l : List Coord} {k : Nat} {c : Coord}
    (h : randomChoice l k = some c) : c ∈ l := by
  unfold randomChoice at h
  exact List.getElem?_mem h

/-- `random.choice` fails (raises `IndexError`) exactly on the empty list. -/
theorem randomChoice_eq_none {l : List Coord} {k : Nat} :
    randomChoice l k = none ↔ l = [] := by
  unfold randomChoice
  constructor
  · intro h
    rcases l with _ | ⟨a, l'⟩
    · rfl
    · exfalso
      rw [List.getElem?_eq_none_iff] at h
      exact absurd (Nat.mod_lt _ (by simp)) (not_lt.mpr h)
  · rintro rfl
    rfl

/-! ### The relocation step -/

/-- Characterisation of a successful relocation step. -/
theorem relocateOne_eq_some {g : Grid} {spots : List Coord} {src : Coord}
    {k : Nat} {g1 : Grid} {spots' : List Coord} {d : Coord}
    (h : relocateOne g spots src k = some (g1, spots', d)) :
    randomChoice (if spots.isEmpty then getEmptyCells g else spots) k = some d ∧
    g1 = (g.set d.1 d.2 (g.getC src)).set src.1 src.2 (-1) ∧
    spots' = (if spots.isEmpty then getEmptyCells g else spots).erase d := by
  simp only [relocateOne] at h
  cases hrc : randomChoice (if spots.isEmpty then getEmptyCells g else spots) k with
  | none => rw [hrc] at h; cases h
  | some d0 =>
    rw [hrc] at h
    simp only [Option.some.injEq, Prod.mk.injEq] at h
    obtain ⟨h1, h2, h3⟩ := h
    subst h3
    exact ⟨rfl, h1.symm, h2.symm⟩

/-- The working list actually used by a step (after the possible rescan)
contains only in-bounds empty cells and has no duplicates, whenever the
incoming working list does. -/
theorem spots1_spec (g : Grid) (spots : List Coord)
    (hsp : ∀ c ∈ spots, g.inB c ∧ g.getC c = -1) (hnd : spots.Nodup) :
    (∀ c ∈ (if spots.isEmpty then getEmptyCells g else spots),
      g.inB c ∧ g.getC c = -1) ∧
    (if spots.isEmpty then getEmptyCells g else spots).Nodup := by
  split
  · exact ⟨fun c hc => mem_getEmptyCells.mp hc, nodup_getEmptyCells g⟩
  · exact ⟨hsp, hnd⟩

/-- Master invariant of the relocation loop.  Starting from a well-formed
grid, a duplicate-free working list of in-bounds empty cells, and a
duplicate-free list of in-bounds occupied sources, a successful run of
`updateLoop` (1) preserves dimensions and well-formedness, (2) preserves
every occurrence count in the cell buffer, (3) chooses exactly one
destination per source, destinations being (4) in bounds, (5) drawn from
initially-empty or just-vacated cells, and (6) pairwise distinct;
(7) untouched cells keep their value, (8) every processed source ends empty
unless later reused as a destination, (9) the i-th destination ends holding
the original value of the i-th source, and (10) at the moment of its
choice each destination is empty in the then-current grid and distinct
from its source. -/
theorem updateLoop_spec :
    ∀ (unhappy : List Coord) (g : Grid) (spots : List Coord) (f : Nat → Nat)
      (g2 : Grid) (spots2 dests : List Coord),
      g.WF →
      (∀ c ∈ spots, g.inB c ∧ g.getC c = -1) →
      spots.Nodup →
      (∀ c ∈ unhappy, g.inB c ∧ g.getC c ≠ -1) →
      unhappy.Nodup →
      updateLoop g spots unhappy f = some (g2, spots2, dests) →
      (g2.width = g.width ∧ g2.height = g.height ∧ g2.WF) ∧
      (∀ w : Int, g2.cells.count w = g.cells.count w) ∧
      dests.length = unhappy.length ∧
      (∀ d ∈ dests, g.inB d) ∧
      (∀ d ∈ dests, g.getC d = -1 ∨ d ∈ unhappy) ∧
      dests.Nodup ∧
      (∀ c : Coord, g.inB c → c ∉ unhappy → c ∉ dests →
        g2.getC c = g.getC c) ∧
      (∀ c ∈ unhappy, c ∉ dests → g2.getC c = -1) ∧
      (∀ i, i < unhappy.length →
        g2.getC (dests.getD i (0, 0)) = g.getC (unhappy.getD i (0, 0))) ∧
      (∀ i, i < unhappy.length →
        ∃ gi si,
          updateLoop g spots (unhappy.take i) f = some (gi, si, dests.take i) ∧
          gi.getC (dests.getD i (0, 0)) = -1 ∧
          dests.getD i (0, 0) ≠ unhappy.getD i (0, 0)) := by
  intro unhappy
  induction unhappy with
  | nil =>
    intro g spots f g2 spots2 dests hWF hsp hspnd hun hunnd hrun
    simp only [updateLoop, Option.some.injEq, Prod.mk.injEq] at hrun
    obtain ⟨rfl, rfl, rfl⟩ := hrun
    refine ⟨⟨rfl, rfl, hWF⟩, fun w => rfl, rfl, ?_, ?_, List.nodup_nil,
      ?_, ?_, ?_, ?_⟩
    · intro d hd; cases hd
    · intro d hd; cases hd
    · intro c _ _ _; rfl
    · intro c hc; cases hc
    · intro i hi; cases hi
    · intro i hi; cases hi
  | cons src rest ih =>
    intro g spots f g2 spots2 dests hWF hsp hspnd hun hunnd hrun
    obtain ⟨hsrcB, hsrcOcc⟩ := hun src (List.mem_cons_self src rest)
    have hsrcrest : src ∉ rest := (List.nodup_cons.mp hunnd).1
    simp only [updateLoop] at hrun
    cases hstep : relocateOne g spots src (f 0) with
    | none => simp only [hstep] at hrun; simp at hrun
    | some r =>
      obtain ⟨g1, spots1, d⟩ := r
      simp only [hstep] at hrun
      cases hrec : updateLoop g1 spots1 rest (fun n => f (n + 1)) with
      | none => simp only [hrec] at hrun; simp at hrun
      | some r2 =>
        obtain ⟨g2', spots2', ds⟩ := r2
        simp only [hrec, Option.some.injEq, Prod.mk.injEq] at hrun
        obtain ⟨rfl, rfl, rfl⟩ := hrun
        obtain ⟨hrc, hg1, hspots1⟩ := relocateOne_eq_some hstep
        obtain ⟨hS1mem, hS1nd⟩ := spots1_spec g spots hsp hspnd
        have hdmem : d ∈ (if spots.isEmpty then getEmptyCells g else spots) :=
          randomChoice_mem hrc
        obtain ⟨hdB, hdEmpty⟩ := hS1mem d hdmem
        have hdnesrc : d ≠ src := by
          intro hEq
          exact hsrcOcc (hEq ▸ hdEmpty)
        have hdnerest : d ∉ rest := by
          intro hmem
          exact (hun d (List.mem_cons_of_mem src hmem)).2 hdEmpty
        -- facts about the grid after this one move
        have hg1W : g1.width = g.width := by rw [hg1]; rfl
        have hg1H : g1.height = g.height := by rw [hg1]; rfl
        have hg1WF : g1.WF := by
          rw [hg1]
          exact Grid.set_WF _ (Grid.set_WF g hWF _ _ _) _ _ _
        have hg1count : ∀ w : Int, g1.cells.count w = g.cells.count w := by
          intro w
          rw [hg1]
          exact move_preserves_count g hWF hsrcB hdB hdnesrc hdEmpty w
        have hg1d : g1.getC d = g.getC src := by
          rw [hg1, Grid.getC_set_ne (g.set d.1 d.2 (g.getC src)) hsrcB.2
            hdB.2 (Ne.symm hdnesrc) (-1)]
          exact Grid.getC_set_self g hWF hdB _
        have hg1src : g1.getC src = -1 := by
          rw [hg1]
          exact Grid.getC_set_self _ (Grid.set_WF g hWF _ _ _) hsrcB _
        have hg1other : ∀ c : Coord, c.2 < g.width → c ≠ src → c ≠ d →
            g1.getC c = g.getC c := by
          intro c hcw hcs hcd
          rw [hg1, Grid.getC_set_ne (g.set d.1 d.2 (g.getC src)) hsrcB.2
            hcw (Ne.symm hcs) (-1), Grid.getC_set_ne g hdB.2 hcw (Ne.symm hcd)]
        -- invariants for the tail
        have hsp' : ∀ c ∈ spots1, g1.inB c ∧ g1.getC c = -1 := by
          intro c hc
          rw [hspots1] at hc
          obtain ⟨hcd, hcS⟩ := (List.Nodup.mem_erase_iff hS1nd).mp hc
          obtain ⟨hcB, hcE⟩ := hS1mem c hcS
          have hcsrc : c ≠ src := by
            intro hEq
            exact hsrcOcc (hEq ▸ hcE)
          constructor
          · show c.1 < g1.height ∧ c.2 < g1.width
            rw [hg1W, hg1H]
            exact hcB
          · rw [hg1other c hcB.2 hcsrc hcd]
            exact hcE
        have hspnd' : spots1.Nodup := by
          rw [hspots1]
          exact List.Nodup.erase _ hS1nd
        have hun' : ∀ c ∈ rest, g1.inB c ∧ g1.getC c ≠ -1 := by
          intro c hc
          obtain ⟨hcB, hcO⟩ := hun c (List.mem_cons_of_mem src hc)
          have hcsrc : c ≠ src := by
            intro hEq
            exact hsrcrest (hEq ▸ hc)
          have hcd : c ≠ d := by
            intro hEq
            exact hcO (hEq ▸ hdEmpty)
          constructor
          · show c.1 < g1.height ∧ c.2 < g1.width
            rw [hg1W, hg1H]
            exact hcB
          · rw [hg1other c hcB.2 hcsrc hcd]
            exact hcO
        have hunnd' : rest.Nodup := (List.nodup_cons.mp hunnd).2
        obtain ⟨⟨ihW, ihH, ihWF⟩, ihCount, ihLen, ihB, ihOrigin, ihNodup,
          ihUnch, ihVac, ihVal, ihPre⟩ :=
          ih g1 spots1 (fun n => f (n + 1)) g2' spots2' ds hg1WF hsp' hspnd'
            hun' hunnd' hrec
        have ihB' : ∀ e ∈ ds, g.inB e := by
          intro e he
          have := ihB e he
          show e.1 < g.height ∧ e.2 < g.width
          rw [← hg1W, ← hg1H]
          exact this
        have hdds : d ∉ ds := by
          intro hmem
          rcases ihOrigin d hmem with hEmpty1 | hInRest
          · rw [hg1d] at hEmpty1
            exact hsrcOcc hEmpty1
          · exact hdnerest hInRest
        refine ⟨⟨ihW.trans hg1W, ihH.trans hg1H, ihWF⟩, ?_, ?_, ?_, ?_, ?_,
          ?_, ?_, ?_, ?_⟩
        -- (2) counts
        · intro w
          rw [ihCount w, hg1count w]
        -- (3) one destination per source
        · simp [ihLen]
        -- (4) destinations in bounds
        · intro e he
          rcases List.mem_cons.mp he with rfl | he'
          · exact hdB
          · exact ihB' e he'
        -- (5) destinations initially empty or vacated
        · intro e he
          rcases List.mem_cons.mp he with rfl | he'
          · exact Or.inl hdEmpty
          · rcases ihOrigin e he' with hEmpty1 | hInRest
            · by_cases hes : e = src
              · exact Or.inr (hes ▸ List.mem_cons_self src rest)
              · by_cases hed : e = d
                · exfalso
                  rw [hed, hg1d] at hEmpty1
                  exact hsrcOcc hEmpty1
                · refine Or.inl ?_
                  rw [← hg1other e (ihB' e he').2 hes hed]
                  exact hEmpty1
            · exact Or.inr (List.mem_cons_of_mem src hInRest)
        -- (6) destinations distinct
        · exact List.nodup_cons.mpr ⟨hdds, ihNodup⟩
        -- (7) untouched cells unchanged
        · intro c hcB hcnu hcnd
          have hcsrc : c ≠ src := fun hEq => hcnu (hEq ▸ List.mem_cons_self src rest)
          have hcrest : c ∉ rest := fun hmem => hcnu (List.mem_cons_of_mem src hmem)
          have hcd : c ≠ d := fun hEq => hcnd (hEq ▸ List.mem_cons_self d ds)
          have hcds : c ∉ ds := fun hmem => hcnd (List.mem_cons_of_mem d hmem)
          have hcB1 : g1.inB c := by
            show c.1 < g1.height ∧ c.2 < g1.width
            rw [hg1W, hg1H]
            exact hcB
          rw [ihUnch c hcB1 hcrest hcds, hg1other c hcB.2 hcsrc hcd]
        -- (8) processed sources end empty unless reused
        · intro c hc hcnd
          rcases List.mem_cons.mp hc with rfl | hcrest
          · have hcds : c ∉ ds := fun hmem => hcnd (List.mem_cons_of_mem d hmem)
            have hcB1 : g1.inB c := by
              show c.1 < g1.height ∧ c.2 < g1.width
              rw [hg1W, hg1H]
              exact hsrcB
            rw [ihUnch c hcB1 hsrcrest hcds]
            exact hg1src
          · have hcds : c ∉ ds := fun hmem => hcnd (List.mem_cons_of_mem d hmem)
            exact ihVac c hcrest hcds
        -- (9) the i-th destination holds the i-th source's original value
        · intro i hi
          cases i with
          | zero =>
            simp only [List.getD_cons_zero]
            have hdB1 : g1.inB d := by
              show d.1 < g1.height ∧ d.2 < g1.width
              rw [hg1W, hg1H]
              exact hdB
            rw [ihUnch d hdB1 hdnerest hdds]
            exact hg1d
          | succ j =>
            have hj : j < rest.length := by simpa using hi
            simp only [List.getD_cons_succ]
            rw [ihVal j hj]
            have hemem : rest.getD j (0, 0) ∈ rest := list_getD_mem _ _ _ hj
            obtain ⟨heB, heO⟩ := hun _ (List.mem_cons_of_mem src hemem)
            have hesrc : rest.getD j (0, 0) ≠ src := by
              intro hEq
              exact hsrcrest (hEq ▸ hemem)
            have hed : rest.getD j (0, 0) ≠ d := by
              intro hEq
              exact hdnerest (hEq ▸ hemem)
            rw [hg1other _ heB.2 hesrc hed]
        -- (10) each destination is empty at the moment of its choice
        · intro i hi
          cases i with
          | zero =>
            refine ⟨g, spots, rfl, ?_, ?_⟩
            · simpa only [List.getD_cons_zero] using hdEmpty
            · simpa only [List.getD_cons_zero] using hdnesrc
          | succ j =>
            have hj : j < rest.length := by simpa using hi
            obtain ⟨gi, si, hpre, hgi, hne'⟩ := ihPre j hj
            refine ⟨gi, si, ?_, ?_, ?_⟩
            · simp only [List.take_succ_cons, updateLoop, hstep, hpre]
            · simpa only [List.getD_cons_succ] using hgi
            · simpa only [List.getD_cons_succ] using hne'

/-- Specialisation of `updateLoop_spec` to a full `_update` pass: the
processing order is any shuffle (permutation) of the unhappy list found on
the grid, and the working list starts as `_get_empty_cells()`. -/
theorem updatePass_spec (g : Grid) (t : ℚ) (order : List Coord)
    (f : Nat → Nat) (g2 : Grid) (spots2 dests : List Coord) (hWF : g.WF)
    (hperm : order.Perm (findUnhappyCells g t))
    (hrun : updatePass g order f = some (g2, spots2, dests)) :
    (g2.width = g.width ∧ g2.height = g.height ∧ g2.WF) ∧
    (∀ w : Int, g2.cells.count w = g.cells.count w) ∧
    dests.length = order.length ∧
    (∀ d ∈ dests, g.inB d) ∧
    (∀ d ∈ dests, g.getC d = -1 ∨ d ∈ order) ∧
    dests.Nodup ∧
    (∀ c : Coord, g.inB c → c ∉ order → c ∉ dests →
      g2.getC c = g.getC c) ∧
    (∀ c ∈ order, c ∉ dests → g2.getC c = -1) ∧
    (∀ i, i < order.length →
      g2.getC (dests.getD i (0, 0)) = g.getC (order.getD i (0, 0))) ∧
    (∀ i, i < order.length →
      ∃ gi si,
        updateLoop g (getEmptyCells g) (order.take i) f
          = some (gi, si, dests.take i) ∧
        gi.getC (dests.getD i (0, 0)) = -1 ∧
        dests.getD i (0, 0) ≠ order.getD i (0, 0)) := by
  have horder : ∀ c ∈ order, g.inB c ∧ g.getC c ≠ -1 := by
    intro c hc
    have hc' := hperm.mem_iff.mp hc
    obtain ⟨hB, hO, _⟩ := mem_findUnhappyCells.mp hc'
    exact ⟨hB, hO⟩
  exact updateLoop_spec order g (getEmptyCells g) f g2 spots2 dests hWF
    (fun c hc => mem_getEmptyCells.mp hc) (nodup_getEmptyCells g)
    horder (hperm.symm.nodup (nodup_findUnhappyCells g t)) hrun

/-! ### Claim theorems -/

/-- C1: for every grid state and every relocation pass performed by the
update step (any shuffle of the unhappy list, any sequence of random
choices), the multiset of non-empty cell values after the pass equals the
multiset before it — agents are moved, never created, destroyed or
retyped — and consequently the count of `Empty` (`-1`) cells is unchanged
as well. -/
theorem update_conserves_multiset (g : Grid) (t : ℚ) (order : List Coord)
    (f : Nat → Nat) (g2 : Grid) (spots2 dests : List Coord)
    (hWF : g.WF) (hperm : order.Perm (findUnhappyCells g t))
    (hrun : updatePass g order f = some (g2, spots2, dests)) :
    ((g2.cells.filter (fun v => !(v == -1)) : List Int) : Multiset Int)
      = ((g.cells.filter (fun v => !(v == -1)) : List Int) : Multiset Int) ∧
    g2.cells.count (-1) = g.cells.count (-1) := by
  obtain ⟨_, hcount, _⟩ :=
    updatePass_spec g t order f g2 spots2 dests hWF hperm hrun
  have hpermCells : g2.cells.Perm g.cells := List.perm_iff_count.mpr hcount
  exact ⟨Multiset.coe_eq_coe.mpr (hpermCells.filter _), hcount (-1)⟩

/-- C1 witness: a concrete pass on the 1×3 grid `[2, 3, -1]` with
threshold `1/2`, in which both agents move (the second one into the cell
vacated by the first, through the rescan branch). -/
theorem update_conserves_multiset_witness :
    (((Grid.mk 3 1 [3, -1, 2]).cells.filter (fun v => !(v == -1))
        : List Int) : Multiset Int)
      = (((Grid.mk 3 1 [2, 3, -1]).cells.filter (fun v => !(v == -1))
        : List Int) : Multiset Int) ∧
    (Grid.mk 3 1 [3, -1, 2]).cells.count (-1)
      = (Grid.mk 3 1 [2, 3, -1]).cells.count (-1) :=
  update_conserves_multiset (Grid.mk 3 1 [2, 3, -1]) (1/2)
    (findUnhappyCells (Grid.mk 3 1 [2, 3, -1]) (1/2)) (fun _ => 0)
    (Grid.mk 3 1 [3, -1, 2]) [] [(0, 2), (0, 0)]
    (by rfl) (List.Perm.refl _) (by with_unfolding_all decide)

/-- C4: during a relocation pass, every chosen destination comes from the
current working list — an initially-empty cell, or (after the mid-pass
rescan) a cell vacated earlier in the same pass, i.e. an unhappy source —
and a cell already claimed as a destination earlier in the same pass is
never chosen again within that pass (the destinations are pairwise
distinct). -/
theorem update_destinations_distinct (g : Grid) (t : ℚ) (order : List Coord)
    (f : Nat → Nat) (g2 : Grid) (spots2 dests : List Coord)
    (hWF : g.WF) (hperm : order.Perm (findUnhappyCells g t))
    (hrun : updatePass g order f = some (g2, spots2, dests)) :
    dests.Nodup ∧ ∀ d ∈ dests, g.getC d = -1 ∨ d ∈ order := by
  obtain ⟨_, _, _, _, hOrigin, hNodup, _⟩ :=
    updatePass_spec g t order f g2 spots2 dests hWF hperm hrun
  exact ⟨hNodup, hOrigin⟩

/-- C4 witness: the concrete pass on `[2, 3, -1]` chooses the distinct
destinations `(0,2)` (initially empty) and `(0,0)` (vacated earlier in the
same pass by the first move and found by the rescan). -/
theorem update_destinations_distinct_witness :
    ([(0, 2), (0, 0)] : List Coord).Nodup ∧
    ∀ d ∈ ([(0, 2), (0, 0)] : List Coord),
      (Grid.mk 3 1 [2, 3, -1]).getC d = -1 ∨
        d ∈ findUnhappyCells (Grid.mk 3 1 [2, 3, -1]) (1/2) :=
  update_destinations_distinct (Grid.mk 3 1 [2, 3, -1]) (1/2)
    (findUnhappyCells (Grid.mk 3 1 [2, 3, -1]) (1/2)) (fun _ => 0)
    (Grid.mk 3 1 [3, -1, 2]) [] [(0, 2), (0, 0)]
    (by rfl) (List.Perm.refl _) (by with_unfolding_all decide)

/-- C5: after a complete relocation pass, every coordinate that was in the
unhappy processing order before the pass holds `Empty` (`-1`), unless it
was itself picked as a destination later in the same pass — in which case
it holds the relocated agent's value: the `i`-th destination ends the pass
holding exactly the original value of the `i`-th processed source, which is
not `-1`. -/
theorem update_vacates_unhappy (g : Grid) (t : ℚ) (order : List Coord)
    (f : Nat → Nat) (g2 : Grid) (spots2 dests : List Coord)
    (hWF : g.WF) (hperm : order.Perm (findUnhappyCells g t))
    (hrun : updatePass g order f = some (g2, spots2, dests)) :
    (∀ c ∈ order, c ∉ dests → g2.getC c = -1) ∧
    (∀ i, i < order.length →
      g2.getC (dests.getD i (0, 0)) = g.getC (order.getD i (0, 0)) ∧
      g2.getC (dests.getD i (0, 0)) ≠ -1) := by
  obtain ⟨_, _, _, _, _, _, _, hVac, hVal, _⟩ :=
    updatePass_spec g t order f g2 spots2 dests hWF hperm hrun
  refine ⟨hVac, fun i hi => ⟨hVal i hi, ?_⟩⟩
  rw [hVal i hi]
  have hmem : order.getD i (0, 0) ∈ order := list_getD_mem _ _ _ hi
  obtain ⟨_, hO, _⟩ := mem_findUnhappyCells.mp (hperm.mem_iff.mp hmem)
  exact hO

/-- C5 witness: in the concrete pass on `[2, 3, -1]`, the unhappy cell
`(0,1)` (never reused) ends empty, destination `(0,2)` holds the value `2`
moved from source `(0,0)`, and the unhappy cell `(0,0)`, reused as the
second destination, holds the value `3` moved from source `(0,1)`. -/
theorem update_vacates_unhappy_witness :
    (∀ c ∈ findUnhappyCells (Grid.mk 3 1 [2, 3, -1]) (1/2),
      c ∉ ([(0, 2), (0, 0)] : List Coord) →
      (Grid.mk 3 1 [3, -1, 2]).getC c = -1) ∧
    (∀ i, i < (findUnhappyCells (Grid.mk 3 1 [2, 3, -1]) (1/2)).length →
      (Grid.mk 3 1 [3, -1, 2]).getC
          (([(0, 2), (0, 0)] : List Coord).getD i (0, 0))
        = (Grid.mk 3 1 [2, 3, -1]).getC
          ((findUnhappyCells (Grid.mk 3 1 [2, 3, -1]) (1/2)).getD i (0, 0)) ∧
      (Grid.mk 3 1 [3, -1, 2]).getC
          (([(0, 2), (0, 0)] : List Coord).getD i (0, 0)) ≠ -1) :=
  update_vacates_unhappy (Grid.mk 3 1 [2, 3, -1]) (1/2)
    (findUnhappyCells (Grid.mk 3 1 [2, 3, -1]) (1/2)) (fun _ => 0)
    (Grid.mk 3 1 [3, -1, 2]) [] [(0, 2), (0, 0)]
    (by rfl) (List.Perm.refl _) (by with_unfolding_all decide)

/-- C10: at the moment each unhappy agent is moved during a relocation
pass — that is, in the grid `gi` reached after processing the first `i`
sources — the `i`-th chosen destination holds `Empty` (`-1`), and it is
never the `i`-th agent's own source cell (which still holds the agent when
the choice is made); hence every processed agent changes position and no
agent is overwritten. -/
theorem update_destination_empty_at_move (g : Grid) (t : ℚ)
    (order : List Coord) (f : Nat → Nat) (g2 : Grid)
    (spots2 dests : List Coord)
    (hWF : g.WF) (hperm : order.Perm (findUnhappyCells g t))
    (hrun : updatePass g order f = some (g2, spots2, dests)) :
    ∀ i, i < order.length →
      ∃ gi si,
        updateLoop g (getEmptyCells g) (order.take i) f
          = some (gi, si, dests.take i) ∧
        gi.getC (dests.getD i (0, 0)) = -1 ∧
        dests.getD i (0, 0) ≠ order.getD i (0, 0) := by
  obtain ⟨_, _, _, _, _, _, _, _, _, hPre⟩ :=
    updatePass_spec g t order f g2 spots2 dests hWF hperm hrun
  exact hPre

/-- C10 witness: in the concrete pass on `[2, 3, -1]`, after the first
move the grid is `[-1, 3, 2]`, and the second destination `(0,0)` is empty
in that intermediate grid and distinct from its source `(0,1)`. -/
theorem update_destination_empty_at_move_witness :
    ∃ gi si,
      updateLoop (Grid.mk 3 1 [2, 3, -1])
          (getEmptyCells (Grid.mk 3 1 [2, 3, -1]))
          ((findUnhappyCells (Grid.mk 3 1 [2, 3, -1]) (1/2)).take 1)
          (fun _ => 0)
        = some (gi, si, ([(0, 2), (0, 0)] : List Coord).take 1) ∧
      gi.getC (([(0, 2), (0, 0)] : List Coord).getD 1 (0, 0)) = -1 ∧
      ([(0, 2), (0, 0)] : List Coord).getD 1 (0, 0)
        ≠ (findUnhappyCells (Grid.mk 3 1 [2, 3, -1]) (1/2)).getD 1 (0, 0) :=
  update_destination_empty_at_move (Grid.mk 3 1 [2, 3, -1]) (1/2)
    (findUnhappyCells (Grid.mk 3 1 [2, 3, -1]) (1/2)) (fun _ => 0)
    (Grid.mk 3 1 [3, -1, 2]) [] [(0, 2), (0, 0)]
    (by rfl) (List.Perm.refl _) (by with_unfolding_all decide)
    1 (by with_unfolding_all decide)

/-- The redundant inner guard `if i != -1` of the generator expression in
`_find_unhappy_cells` filters an already-filtered list and changes
nothing. -/
theorem filter_notEmpty_idem (g : Grid) (y x : Nat) :
    (notEmptyNeighbours g y x).filter (fun i => !(i == -1))
      = notEmptyNeighbours g y x := by
  unfold notEmptyNeighbours
  rw [List.filter_filter]
  simp only [Bool.and_self]

/-- C2: for an occupied cell with at least one occupied neighbour, the
classifier marks it unhappy exactly when
`same_count < len(occupied) * threshold`, with strict inequality; when the
fraction of same-type occupied neighbours exactly equals the threshold the
cell is classified happy, not unhappy. -/
theorem unhappy_iff_below_threshold (g : Grid) (t : ℚ) (y x : Nat)
    (hcell : g.get y x ≠ -1) (hocc : notEmptyNeighbours g y x ≠ []) :
    (unhappyAt g t y x = true ↔
      (((notEmptyNeighbours g y x).count (g.get y x) : ℕ) : ℚ)
        < ((notEmptyNeighbours g y x).length : ℚ) * t) ∧
    ((((notEmptyNeighbours g y x).count (g.get y x) : ℕ) : ℚ)
        = ((notEmptyNeighbours g y x).length : ℚ) * t →
      unhappyAt g t y x = false) := by
  have hiff : unhappyAt g t y x = true ↔
      (((notEmptyNeighbours g y x).count (g.get y x) : ℕ) : ℚ)
        < ((notEmptyNeighbours g y x).length : ℚ) * t := by
    simp only [unhappyAt, filter_notEmpty_idem, decide_eq_true_eq]
    rw [show (notEmptyNeighbours g y x).countP (fun i => i == g.get y x)
        = (notEmptyNeighbours g y x).count (g.get y x) from rfl]
  refine ⟨hiff, fun hEq => ?_⟩
  rw [Bool.eq_false_iff]
  intro htrue
  have hlt := hiff.mp htrue
  rw [hEq] at hlt
  exact lt_irrefl _ hlt

/-- C2 witness: in the 1×3 grid `[2, 2, 3]` with threshold `1/2`, the
centre cell has occupied neighbours `[2, 3]`, exactly half of them of its
own type: the strict comparison `1 < 2 * (1/2)` fails, so the cell is
classified happy — equality favours happiness. -/
theorem unhappy_iff_below_threshold_witness :
    ((Grid.mk 3 1 [2, 2, 3]).get 0 1 ≠ -1 ∧
      notEmptyNeighbours (Grid.mk 3 1 [2, 2, 3]) 0 1 ≠ []) ∧
    (unhappyAt (Grid.mk 3 1 [2, 2, 3]) (1/2) 0 1 = true ↔
      (((notEmptyNeighbours (Grid.mk 3 1 [2, 2, 3]) 0 1).count
          ((Grid.mk 3 1 [2, 2, 3]).get 0 1) : ℕ) : ℚ)
        < ((notEmptyNeighbours (Grid.mk 3 1 [2, 2, 3]) 0 1).length : ℚ)
          * (1/2)) ∧
    ((((notEmptyNeighbours (Grid.mk 3 1 [2, 2, 3]) 0 1).count
          ((Grid.mk 3 1 [2, 2, 3]).get 0 1) : ℕ) : ℚ)
        = ((notEmptyNeighbours (Grid.mk 3 1 [2, 2, 3]) 0 1).length : ℚ)
          * (1/2) →
      unhappyAt (Grid.mk 3 1 [2, 2, 3]) (1/2) 0 1 = false) :=
  ⟨⟨by decide, by decide⟩,
    unhappy_iff_below_threshold (Grid.mk 3 1 [2, 2, 3]) (1/2) 0 1
      (by decide) (by decide)⟩

/-- C3: an occupied cell all of whose in-bounds neighbours are empty (no
occupied neighbour at all) is classified happy for every threshold in
`[0, 1)`, and such a cell never appears in the unhappy list. -/
theorem isolated_cell_happy (g : Grid) (t : ℚ) (y x : Nat)
    (hcell : g.get y x ≠ -1) (hocc : notEmptyNeighbours g y x = [])
    (h0 : 0 ≤ t) (h1 : t < 1) :
    unhappyAt g t y x = false ∧ (y, x) ∉ findUnhappyCells g t := by
  have hfalse : unhappyAt g t y x = false := by
    simp [unhappyAt, hocc]
  refine ⟨hfalse, fun hmem => ?_⟩
  obtain ⟨_, _, hunh⟩ := mem_findUnhappyCells.mp hmem
  exact absurd hunh (by simp [hfalse])

/-- C3 witness: the single occupied cell of a 1×1 grid has no neighbours
at all, and is classified happy at threshold `0`. -/
theorem isolated_cell_happy_witness :
    ((Grid.mk 1 1 [2]).get 0 0 ≠ -1 ∧
      notEmptyNeighbours (Grid.mk 1 1 [2]) 0 0 = [] ∧
      (0 : ℚ) ≤ 0 ∧ (0 : ℚ) < 1) ∧
    unhappyAt (Grid.mk 1 1 [2]) 0 0 0 = false ∧
    (0, 0) ∉ findUnhappyCells (Grid.mk 1 1 [2]) 0 :=
  ⟨⟨by decide, by decide, by decide, by decide⟩,
    isolated_cell_happy (Grid.mk 1 1 [2]) 0 0 0
      (by decide) (by decide) (by decide) (by decide)⟩

/-- Blanking a duplicate-free list of in-range indices of non-`-1` cells
adds exactly one `-1` per index. -/
theorem count_foldl_set_neg (idxs : List Nat) :
    ∀ cs : List Int, idxs.Nodup →
      (∀ i ∈ idxs, i < cs.length ∧ cs.getD i 0 ≠ -1) →
      (idxs.foldl (fun cs i => cs.set i (-1)) cs).count (-1)
        = cs.count (-1) + idxs.length := by
  induction idxs with
  | nil => intro cs _ _; simp
  | cons i rest ih =>
    intro cs hnd hmem
    obtain ⟨hi, hvi⟩ := hmem i (List.mem_cons_self i rest)
    have hstep : (cs.set i (-1)).count (-1) = cs.count (-1) + 1 := by
      have hadd := count_set_add cs i (-1) (-1) hi
      rw [if_neg hvi, if_pos rfl] at hadd
      omega
    have hrest : ∀ j ∈ rest, j < (cs.set i (-1)).length ∧
        (cs.set i (-1)).getD j 0 ≠ -1 := by
      intro j hj
      obtain ⟨hjl, hjv⟩ := hmem j (List.mem_cons_of_mem i hj)
      have hji : i ≠ j := fun hEq => (List.nodup_cons.mp hnd).1 (hEq ▸ hj)
      refine ⟨by rw [List.length_set]; exact hjl, ?_⟩
      rw [list_getD_set_ne _ _ _ hji]
      exact hjv
    simp only [List.foldl_cons]
    rw [ih (cs.set i (-1)) (List.nodup_cons.mp hnd).2 hrest, hstep,
      List.length_cons]
    omega

/-- Every value in the blanked buffer is `-1` or came from the original
buffer. -/
theorem mem_foldl_set_neg (idxs : List Nat) :
    ∀ (cs : List Int) (v : Int),
      v ∈ idxs.foldl (fun cs i => cs.set i (-1)) cs → v = -1 ∨ v ∈ cs := by
  induction idxs with
  | nil => intro cs v hv; exact Or.inr (by simpa using hv)
  | cons i rest ih =>
    intro cs v hv
    simp only [List.foldl_cons] at hv
    rcases ih _ v hv with h1 | h1
    · exact Or.inl h1
    · rcases List.mem_or_eq_of_mem_set h1 with h2 | h2
      · exact Or.inr h2
      · exact Or.inl h2

/-- C6 counterexample: the claim says the fresh grid has exactly
`round(percent_empty * width * height)` empty cells, but with
`width = 3, height = 1, percent_empty = 1/2` the code computes
`int(0.5 * 3) = 1` empty cell while `round(0.5 * 3) = 2`. -/
theorem init_round_counterexample :
    ((initGrid 3 1 (1/2) [2, 2, 2] [0, 1, 2]).cells.count (-1) : Int)
      ≠ round ((1/2 : ℚ) * (3 * 1)) := by
  with_unfolding_all decide

/-- C6 (amended): for every valid configuration (`percent_empty` in
`[0,1)`, a value draw of the right size with entries in
`[2, agent_types + 2)`, and a shuffled permutation of all flat indices),
the freshly initialised grid contains exactly
`int(percent_empty * width * height)` (truncation, not rounding) empty
cells, and every other cell holds one of the `agent_types` agent values. -/
theorem init_empty_count (w h : Nat) (p : ℚ) (a : Nat) (vals : List Int)
    (perm : List Nat)
    (hp0 : 0 ≤ p) (hp1 : p < 1)
    (hlen : vals.length = h * w)
    (hvals : ∀ v ∈ vals, 2 ≤ v ∧ v < (a : Int) + 2)
    (hperm : perm.Perm (List.range (h * w))) :
    (initGrid w h p vals perm).cells.count (-1) = numEmpty p (h * w) ∧
    ∀ v ∈ (initGrid w h p vals perm).cells,
      v = -1 ∨ (2 ≤ v ∧ v < (a : Int) + 2) := by
  have hpl : perm.length = h * w := by
    rw [hperm.length_eq, List.length_range]
  have hnum : numEmpty p (h * w) ≤ h * w := by
    unfold numEmpty
    have hle : p * ((h * w : Nat) : ℚ) ≤ ((h * w : Nat) : ℚ) := by
      calc p * ((h * w : Nat) : ℚ)
          ≤ 1 * ((h * w : Nat) : ℚ) :=
            mul_le_mul_of_nonneg_right (le_of_lt hp1) (by positivity)
        _ = ((h * w : Nat) : ℚ) := one_mul _
    have hfl : ⌊p * ((h * w : Nat) : ℚ)⌋ ≤ ((h * w : Nat) : Int) := by
      have := Int.floor_le_floor hle
      rwa [Int.floor_natCast] at this
    exact Int.toNat_le.mpr hfl
  have hnd : (perm.take (numEmpty p (h * w))).Nodup :=
    (List.take_sublist _ _).nodup (hperm.symm.nodup (List.nodup_range (h * w)))
  have hbound : ∀ i ∈ perm.take (numEmpty p (h * w)),
      i < vals.length ∧ vals.getD i 0 ≠ -1 := by
    intro i hi
    have hil : i < h * w :=
      List.mem_range.mp (hperm.mem_iff.mp (List.mem_of_mem_take hi))
    refine ⟨by rw [hlen]; exact hil, ?_⟩
    have hmem : vals.getD i 0 ∈ vals :=
      list_getD_mem _ _ _ (by rw [hlen]; exact hil)
    have h2 := (hvals _ hmem).1
    omega
  constructor
  · show (initCells (h * w) p vals perm).count (-1) = _
    unfold initCells
    rw [count_foldl_set_neg _ vals hnd hbound]
    have hcnt0 : vals.count (-1) = 0 := by
      rw [List.count_eq_zero]
      intro hmem
      have h2 := (hvals _ hmem).1
      omega
    rw [hcnt0, List.length_take, hpl]
    omega
  · intro v hv
    rcases mem_foldl_set_neg _ vals v hv with h1 | h1
    · exact Or.inl h1
    · exact Or.inr (hvals v h1)

/-- C6 witness for the amended claim: a 1×3 grid with
`percent_empty = 1/2`, two agent types, draw `[2, 3, 2]` and shuffled
indices `[2, 0, 1]` ends up with exactly `int(1.5) = 1` empty cell. -/
theorem init_empty_count_witness :
    ((0 : ℚ) ≤ 1/2 ∧ (1/2 : ℚ) < 1 ∧
      ([2, 3, 2] : List Int).length = 1 * 3 ∧
      ([2, 0, 1] : List Nat).Perm (List.range (1 * 3))) ∧
    (initGrid 3 1 (1/2) [2, 3, 2] [2, 0, 1]).cells.count (-1)
      = numEmpty (1/2) (1 * 3) ∧
    (∀ v ∈ (initGrid 3 1 (1/2) [2, 3, 2] [2, 0, 1]).cells,
      v = -1 ∨ (2 ≤ v ∧ v < ((2 : Nat) : Int) + 2)) :=
  ⟨⟨by with_unfolding_all decide, by with_unfolding_all decide, by decide,
      by decide⟩,
    init_empty_count 3 1 (1/2) 2 [2, 3, 2] [2, 0, 1]
      (by with_unfolding_all decide) (by with_unfolding_all decide)
      (by decide) (by decide) (by decide)⟩

/-- C7: the code, contrary to the claim, does not reject a configuration
with no empty cells at setup time.  On the 1×2 grid `[2, 3]` with
`percent_empty = 0` and threshold `1/2`, the numeric validation of
`process_args` accepts the configuration, both cells are unhappy so a
relocation is required, and the relocation pass fails mid-run (the
uncaught `IndexError` of `random.choice` on an empty list, modelled as
`none`) instead of a setup-time rejection. -/
theorem zero_percent_accepted_but_pass_crashes :
    processArgsOk 0 (1/2) = true ∧
    findUnhappyCells (Grid.mk 2 1 [2, 3]) (1/2) ≠ [] ∧
    updatePass (Grid.mk 2 1 [2, 3])
      (findUnhappyCells (Grid.mk 2 1 [2, 3]) (1/2)) (fun _ => 0) = none := by
  refine ⟨?_, ?_, ?_⟩
  · with_unfolding_all decide
  · with_unfolding_all decide
  · with_unfolding_all decide

/-- C8: with a finite iteration budget `N`, the simulation loop performs
at most `N` relocation passes, and with budget `0` it stops at once as
`budgetExhausted` regardless of the happiness state; with the unbounded
budget (`iterations = -1`), whenever the loop halts normally the final
grid has an empty unhappy set — it terminates only upon convergence. -/
theorem budget_bounds_passes (t : ℚ) (sh : Nat → List Coord → List Coord)
    (ch : Nat → Nat → Nat) (g : Grid) (i N fuel : Nat) (g2 : Grid) :
    (runSim t sh ch g i N).2 ≤ N ∧
    runSim t sh ch g i 0 = (SimOutcome.budgetExhausted g, 0) ∧
    (runUnbounded t sh ch g i fuel = some g2 →
      findUnhappyCells g2 t = []) := by
  refine ⟨?_, rfl, ?_⟩
  · induction N generalizing g i with
    | zero => simp [runSim]
    | succ b ihN =>
      simp only [runSim]
      split
      · simp
      · cases hup : updatePass g (sh i (findUnhappyCells g t)) (ch i) with
        | none => simp
        | some r =>
          obtain ⟨g1, s1, ds⟩ := r
          simpa using Nat.succ_le_succ (ihN g1 (i + 1))
  · induction fuel generalizing g i with
    | zero => intro hcontra; cases hcontra
    | succ b ihF =>
      intro hrun
      simp only [runUnbounded] at hrun
      by_cases hconv : (findUnhappyCells g t).isEmpty
      · rw [if_pos hconv] at hrun
        obtain rfl := Option.some.inj hrun
        exact List.isEmpty_iff.mp hconv
      · rw [if_neg hconv] at hrun
        cases hup : updatePass g (sh i (findUnhappyCells g t)) (ch i) with
        | none => simp only [hup] at hrun; cases hrun
        | some r =>
          obtain ⟨g1, s1, ds⟩ := r
          simp only [hup] at hrun
          exact ihF g1 (i + 1) hrun

/-- C8 witness: on the already-converged 1×1 grid `[2]` the unbounded loop
halts within one iteration, and the final grid indeed has no unhappy
cells; the finite-budget bound and the budget-0 stop hold at the same
inputs. -/
theorem budget_bounds_passes_witness :
    (runSim (1/2) (fun _ l => l) (fun _ _ => 0) (Grid.mk 1 1 [2]) 1 1).2 ≤ 1 ∧
    runUnbounded (1/2) (fun _ l => l) (fun _ _ => 0) (Grid.mk 1 1 [2]) 1 1
      = some (Grid.mk 1 1 [2]) ∧
    findUnhappyCells (Grid.mk 1 1 [2]) (1/2) = [] :=
  ⟨(budget_bounds_passes (1/2) (fun _ l => l) (fun _ _ => 0)
      (Grid.mk 1 1 [2]) 1 1 1 (Grid.mk 1 1 [2])).1,
    by with_unfolding_all decide,
    (budget_bounds_passes (1/2) (fun _ l => l) (fun _ _ => 0)
      (Grid.mk 1 1 [2]) 1 1 1 (Grid.mk 1 1 [2])).2.2
      (by with_unfolding_all decide)⟩

/-- C9: the whole sequence of per-iteration grid snapshots is a
deterministic function of the configuration (dimensions, `percent_empty`,
threshold, budget) and of the seed-derived random streams (the initial
value draw, the shuffled index array, the per-iteration shuffle oracle and
choice oracle): two runs with equal inputs produce identical grids at
every iteration. -/
theorem run_deterministic (w h : Nat) (p : ℚ) (vals : List Int)
    (perm : List Nat) (t : ℚ) (sh : Nat → List Coord → List Coord)
    (ch : Nat → Nat → Nat) (b : Nat)
    (w2 h2 : Nat) (p2 : ℚ) (vals2 : List Int) (perm2 : List Nat) (t2 : ℚ)
    (sh2 : Nat → List Coord → List Coord) (ch2 : Nat → Nat → Nat) (b2 : Nat)
    (hw : w = w2) (hh : h = h2) (hp : p = p2) (hv : vals = vals2)
    (hpm : perm = perm2) (ht : t = t2) (hsh : sh = sh2) (hch : ch = ch2)
    (hb : b = b2) :
    runTrace t sh ch (initGrid w h p vals perm) 1 b
      = runTrace t2 sh2 ch2 (initGrid w2 h2 p2 vals2 perm2) 1 b2 := by
  subst hw hh hp hv hpm ht hsh hch hb
  rfl

/-- C9 witness: two concrete runs with identical seed-derived inputs on a
1×1 grid produce the same snapshot sequence. -/
theorem run_deterministic_witness :
    runTrace (1/2) (fun _ l => l) (fun _ _ => 0)
        (initGrid 1 1 0 [2] [0]) 1 2
      = runTrace (1/2) (fun _ l => l) (fun _ _ => 0)
        (initGrid 1 1 0 [2] [0]) 1 2 :=
  run_deterministic 1 1 0 [2] [0] (1/2) (fun _ l => l) (fun _ _ => 0) 2
    1 1 0 [2] [0] (1/2) (fun _ l => l) (fun _ _ => 0) 2
    rfl rfl rfl rfl rfl rfl rfl rfl rfl
